import Mathlib

/-!
Shallow embedding of the numeric core of `calibrate_hcp.c` (a Gwyddion SPM
calibration module) together with theorems checking the specification's
claims against it.

Conventions of the embedding:
* C `double` values are modelled as exact rationals (`ℚ`) in the components
  that only compare, clamp and combine values by field operations, and as
  real numbers (`ℝ`) in the components that use `sqrt`.
* Library primitives of the host application (Gwyddion) that the module
  calls (`gwy_data_field_rtoj`, `GWY_ROUND`, `gwy_data_field_2dfft_humanize`,
  `hypot`, ...) are embedded with their documented semantics.
* Stateful C code is modelled by explicit state passing: each handler takes
  the prior stored value(s) and returns the new stored value(s).
-/

namespace CalibrateHcp

/-! ### Manual scale-factor entry (`xscale_changed` / `yscale_changed`) -/

/-- Embedding of `xscale_changed` (src/calibrate_hcp.c:1095-1107): the parsed
entry value `num` replaces the stored `Xscale` exactly when it differs from
the stored value and is positive; otherwise the stored value is kept. -/
def xscale_changed (Xscale num : ℚ) : ℚ :=
  if num ≠ Xscale ∧ 0 < num then num else Xscale

/-- Embedding of `yscale_changed` (src/calibrate_hcp.c:1109-1121). -/
def yscale_changed (Yscale num : ℚ) : ℚ :=
  if num ≠ Yscale ∧ 0 < num then num else Yscale

/-! ### Intensity-clamp entry (`threshold_lower_changed` / `threshold_upper_changed`) -/

/-- Embedding of `threshold_lower_changed` (src/calibrate_hcp.c:565-583):
`mn`/`mx` are `controls->ranges->min/max`, `lower` the previously stored
bound, `num` the parsed entry value. -/
def threshold_lower_changed (lower mn mx num : ℚ) : ℚ :=
  if mn ≤ num ∧ num ≤ mx then num
  else if num < mn then mn
  else if mx < num then mx
  else lower

/-- Embedding of `threshold_upper_changed` (src/calibrate_hcp.c:585-603). -/
def threshold_upper_changed (upper mn mx num : ℚ) : ℚ :=
  if mn ≤ num ∧ num ≤ mx then num
  else if num < mn then mn
  else if mx < num then mx
  else upper

/-! ### Display/Zoom adapter (`preview` / `zoom_adjust_peaks`) -/

/-- Displayed offset of the spectral image at a given zoom level, from
`preview` (src/calibrate_hcp.c:653-656): extents and offsets are divided by
the zoom level. -/
def zoom_display_offset (off zoom : ℚ) : ℚ := off / zoom

/-- Point mapping of `zoom_adjust_peaks` (src/calibrate_hcp.c:685-705): a
stored absolute peak coordinate `p` is turned into a display-frame selection
coordinate at zoom level `zoom` by subtracting the native offset times
`1/zoom`. -/
def zoom_point_from_abs (p off zoom : ℚ) : ℚ := p - off * (1 / zoom)

/-- Reconstruction of the absolute coordinate of a display-frame point: the
peak coordinate recorded by `peak_find` (src/calibrate_hcp.c:868-871) is the
display coordinate plus the displayed offset `off / zoom`. -/
def zoom_abs_from_point (pt off zoom : ℚ) : ℚ := pt + off / zoom

/-- Embedding of the loop of `zoom_adjust_peaks`: every held selection point
is re-mapped (from its stored absolute peak coordinate) to the new zoom
level; none is discarded. -/
def zoom_adjust_peaks (peaks : List (ℚ × ℚ)) (xoff yoff zoom : ℚ) :
    List (ℚ × ℚ) :=
  peaks.map fun p =>
    (zoom_point_from_abs p.1 xoff zoom, zoom_point_from_abs p.2 yoff zoom)

/-! ### Peak locator (`peak_find`) -/

/-- Lower window bound of the scan of `peak_find`
(src/calibrate_hcp.c:844-847 and 850-853): `c - r`, clamped below at 0. -/
def lowBound (c r : ℤ) : ℤ := if c - r < 0 then 0 else c - r

/-- Upper window bound of the scan of `peak_find`
(src/calibrate_hcp.c:845-849 and 851-855): `c + r`, clamped above at the
resolution `res`. -/
def highBound (res c r : ℤ) : ℤ := if res < c + r then res else c + r

/-- Pixels visited by the scan loops of `peak_find`
(src/calibrate_hcp.c:856-867), in visit order: the column index `i` runs in
the outer loop, the row index `j` in the inner loop, both ascending over the
half-open ranges `[lowI, highI)` and `[lowJ, highJ)`. -/
def windowList (lowI highI lowJ highJ : ℤ) : List (ℤ × ℤ) :=
  (List.range (highI - lowI).toNat).flatMap fun a =>
    (List.range (highJ - lowJ).toNat).map fun b => (lowI + a, lowJ + b)

/-- Candidate triples `(column, row, value)` visited by the scan, in visit
order. -/
def candList (val : ℤ → ℤ → ℚ) (lowI highI lowJ highJ : ℤ) :
    List (ℤ × ℤ × ℚ) :=
  (windowList lowI highI lowJ highJ).map fun ij => (ij.1, ij.2, val ij.1 ij.2)

/-- One step of the scan loop body (src/calibrate_hcp.c:860-865): the current
best `(temp_i, temp_j, temp_z)` is replaced only when the visited value is
strictly greater. -/
def pickStep (acc x : ℤ × ℤ × ℚ) : ℤ × ℤ × ℚ :=
  if x.2.2 > acc.2.2 then x else acc

/-- Embedding of the scan of `peak_find` (src/calibrate_hcp.c:829-867): the
best candidate starts at the rounded input pixel `(col, row)` with its value
(lines 837-839) and is folded through the window in visit order. -/
def peak_find_core (val : ℤ → ℤ → ℚ) (Xres Yres col row r : ℤ) :
    ℤ × ℤ × ℚ :=
  (candList val (lowBound col r) (highBound Xres col r)
      (lowBound row r) (highBound Yres row r)).foldl
    pickStep (col, row, val col row)

/-- Running maximum of the candidate values, seeded with the initial
candidate's value. -/
def runningMax (m : ℚ) (l : List (ℤ × ℤ × ℚ)) : ℚ :=
  l.foldl (fun acc x => max acc x.2.2) m

/-- Spectral image with integer resolution, rational physical extents and
offsets, and a sample function; the value function stands for
`gwy_data_field_get_val`. -/
structure QImage where
  Xres : ℤ
  Yres : ℤ
  xreal : ℚ
  yreal : ℚ
  xoff : ℚ
  yoff : ℚ
  val : ℤ → ℤ → ℚ

/-- Library primitive `gwy_data_field_rtoj`: real X coordinate to column
index, `floor(x * xres / xreal)`. -/
def rtoj (img : QImage) (x : ℚ) : ℤ := ⌊x * img.Xres / img.xreal⌋

/-- Library primitive `gwy_data_field_rtoi`: real Y coordinate to row
index. -/
def rtoi (img : QImage) (y : ℚ) : ℤ := ⌊y * img.Yres / img.yreal⌋

/-- Library primitive `gwy_data_field_jtor`: column index to real X
coordinate, `j * xreal / xres`. -/
def jtor (img : QImage) (j : ℤ) : ℚ := j * img.xreal / img.Xres

/-- Library primitive `gwy_data_field_itor`: row index to real Y
coordinate. -/
def itor (img : QImage) (i : ℤ) : ℚ := i * img.yreal / img.Yres

/-- Embedding of `peak_find` (src/calibrate_hcp.c:829-879): from a
display-frame point `pt` it returns the peak triple `(x, y, z)` stored in
`controls->p[idx]` (lines 868-872) together with the selection point, which
is snapped to the winning pixel exactly when that pixel differs from the
rounded input pixel (lines 873-878). -/
def peak_find (img : QImage) (r : ℤ) (pt : ℚ × ℚ) :
    (ℚ × ℚ × ℚ) × (ℚ × ℚ) :=
  let col := rtoj img pt.1
  let row := rtoi img pt.2
  let best := peak_find_core img.val img.Xres img.Yres col row r
  ((jtor img best.1 + img.xoff, itor img best.2.1 + img.yoff, best.2.2),
   if row - best.2.1 ≠ 0 ∨ col - best.1 ≠ 0
     then (jtor img best.1, itor img best.2.1)
     else pt)

/-- Pixels of the scan window in row-major ascending order (row index in the
outer loop), as the claim describes the scan. -/
def rowMajorWindowList (lowI highI lowJ highJ : ℤ) : List (ℤ × ℤ) :=
  (List.range (highJ - lowJ).toNat).flatMap fun b =>
    (List.range (highI - lowI).toNat).map fun a => (lowI + a, lowJ + b)

/-- Claimed peak refinement following the claim's words (not the source): the
clamped window is scanned in row-major ascending order, the maximum is
tracked, and ties between equal maxima go to the first pixel encountered in
that order; with an empty window (radius 0) only the rounded input pixel is
considered. -/
def claimed_peak_refine (val : ℤ → ℤ → ℚ) (Xres Yres col row r : ℤ) :
    ℤ × ℤ × ℚ :=
  match (rowMajorWindowList (lowBound col r) (highBound Xres col r)
      (lowBound row r) (highBound Yres row r)).map
      (fun ij => (ij.1, ij.2, val ij.1 ij.2)) with
  | [] => (col, row, val col row)
  | c :: rest => rest.foldl pickStep c

/-! ### Lattice solver (`calibration_get_factors`) -/

/-- Solver outputs and the warning flags, the relevant part of
`ThresholdArgs`. Values are real numbers; the warning flags are
propositions since they compare real values for equality. -/
structure ArgsState where
  Xscale : ℝ
  Yscale : ℝ
  Xwarning : Prop
  Ywarning : Prop

/-- Expected reciprocal-space first-ring radius `R = 2 / (sqrt(3) * a)`
(src/calibrate_hcp.c:970). -/
noncomputable def R (lattice : ℝ) : ℝ := 2 / (Real.sqrt 3 * lattice)

/-- Intermediate `ycorr` of the solver (src/calibrate_hcp.c:975). -/
noncomputable def ycorrOf (x1 y1 x2 y2 lattice : ℝ) : ℝ :=
  R lattice *
    Real.sqrt ((x1 * x1 - x2 * x2) /
      (x1 * x1 * (y2 * y2) - x2 * x2 * (y1 * y1)))

/-- Intermediate `xcorr` of the solver (src/calibrate_hcp.c:976). -/
noncomputable def xcorrOf (x1 y1 x2 y2 lattice : ℝ) : ℝ :=
  Real.sqrt ((R lattice * R lattice -
      ycorrOf x1 y1 x2 y2 lattice * ycorrOf x1 y1 x2 y2 lattice * (y1 * y1)) /
    (x1 * x1))

/-- Embedding of `calibration_get_factors` (src/calibrate_hcp.c:960-997).
The scale factors are the reciprocals of the correction factors (lines
977-978). The warning flags mirror the sequence of flag assignments (lines
979-995): each starts at `FALSE` and is or-ed with the degeneracy checks in
source order; the C check `Xscale != Xscale` (not-a-number detection on
doubles, lines 987-990) is embedded as literal self-inequality, which over
the reals is false because real arithmetic has no NaN. -/
noncomputable def calibration_get_factors (x1 y1 x2 y2 lattice : ℝ) :
    ArgsState where
  Xscale := 1 / xcorrOf x1 y1 x2 y2 lattice
  Yscale := 1 / ycorrOf x1 y1 x2 y2 lattice
  Xwarning :=
    (((False ∨ x1 * x1 = x2 * x2) ∨ x1 * x1 = 0) ∨
      1 / xcorrOf x1 y1 x2 y2 lattice ≠ 1 / xcorrOf x1 y1 x2 y2 lattice) ∨
    x1 * x1 * (y2 * y2) = x2 * x2 * (y1 * y1)
  Ywarning :=
    ((False ∨ y1 * y1 = y2 * y2) ∨
      1 / ycorrOf x1 y1 x2 y2 lattice ≠ 1 / ycorrOf x1 y1 x2 y2 lattice) ∨
    x1 * x1 * (y2 * y2) = x2 * x2 * (y1 * y1)

/-- Embedding of the post-dialog decision (src/calibrate_hcp.c:536-539):
`calibrate_do` runs when the selection is full, or otherwise when both
stored scale factors are positive; the warning flags are not consulted. -/
def calibrate_applies (selectionFull : Bool) (args : ArgsState) : Prop :=
  selectionFull = true ∨ (0 < args.Xscale ∧ 0 < args.Yscale)

/-- Embedding of `calibrate_update_scales` (src/calibrate_hcp.c:802-827):
when the selection is full (`gwy_selection_is_full`, i.e. it holds its
maximum of 2 points, line 374) the solver runs on the two refined peaks;
otherwise the stored scale factors are reset to 0 and both warning flags are
cleared (lines 817-822). `points` is the held selection, `p0`/`p1` the two
refined peak positions. -/
noncomputable def calibrate_update_scales (points : List (ℝ × ℝ))
    (p0 p1 : ℝ × ℝ) (lattice : ℝ) : ArgsState :=
  if points.length = 2 then
    calibration_get_factors p0.1 p0.2 p1.1 p1.2 lattice
  else
    { Xscale := 0, Yscale := 0, Xwarning := False, Ywarning := False }

/-- Embedding of `clear_points` (src/calibrate_hcp.c:716-721): the selection
is cleared and the scale update runs on the now-empty selection. -/
noncomputable def clear_points (p0 p1 : ℝ × ℝ) (lattice : ℝ) : ArgsState :=
  calibrate_update_scales [] p0 p1 lattice

/-! ### Calibration applier (`calibrate_do`) -/

/-- Library macro `GWY_ROUND`: `floor(x + 0.5)`. -/
noncomputable def gwyRound (x : ℝ) : ℤ := ⌊x + 1 / 2⌋

/-- Geometry of an image: resolution and physical extents, the fields
`calibrate_do` derives for its output. -/
structure ImageGeom where
  xres : ℤ
  yres : ℤ
  xreal : ℝ
  yreal : ℝ

/-- Embedding of `calibrate_do` (src/calibrate_hcp.c:1019-1036): the output
geometry of the calibrated image. The samples themselves are produced by the
external library resampler (`gwy_data_field_new_resampled`), which yields a
field of exactly the requested resolution; the geometry is the whole content
of the claim. -/
noncomputable def calibrate_do (g : ImageGeom) (Xscale Yscale : ℝ) :
    ImageGeom where
  xres := gwyRound g.xres
  yres := gwyRound (g.yres * Yscale / Xscale)
  xreal := g.xreal * Xscale
  yreal := g.yreal * Yscale

/-! ### Spectral transform (`set_dfield_modulus` / `fft_postprocess`) -/

/-- Real-valued image with flat row-major sample storage. -/
structure SImage where
  xres : ℕ
  yres : ℕ
  xreal : ℝ
  yreal : ℝ
  xoff : ℝ
  yoff : ℝ
  data : ℕ → ℝ

/-- The list of all samples of an image, in storage order. -/
def samples (img : SImage) : List ℝ :=
  (List.range (img.xres * img.yres)).map img.data

/-- Minimum of a list of samples, as `gwy_data_field_get_min_max` computes
it (0 for an empty list; every image has at least one sample). -/
noncomputable def listMin : List ℝ → ℝ
  | [] => 0
  | x :: xs => xs.foldl min x

/-- Embedding of `set_dfield_modulus` (src/calibrate_hcp.c:914-927): every
sample of the target is the modulus `hypot(re, im) = sqrt(re^2 + im^2)` of
the corresponding FFT output samples. -/
noncomputable def set_dfield_modulus (re im target : SImage) : SImage :=
  { target with data := fun k => Real.sqrt (re.data k ^ 2 + im.data k ^ 2) }

/-- Modelled from the spec: `gwy_data_field_2dfft_humanize` is an external
library primitive missing from src/; the spec describes it as fftshift
quadrant swapping, which permutes the samples and leaves the resolution
unchanged. Index permutation of that swap on row-major storage. -/
def fftshiftIndex (xres yres k : ℕ) : ℕ :=
  ((k / xres + yres / 2) % yres) * xres + ((k % xres + xres / 2) % xres)

/-- Quadrant-swapped image (see `fftshiftIndex`). -/
def humanize (img : SImage) : SImage :=
  { img with data := fun k => img.data (fftshiftIndex img.xres img.yres k) }

/-- Embedding of `fft_postprocess` (src/calibrate_hcp.c:929-949): humanize,
set the physical extents to the reciprocal of the sampling interval
(`1 / xmeasure` with `xmeasure = xreal / xres`), set the offsets so the
centered bin maps to physical 0 (`-jtor(res / 2.0)` with the new extents),
then subtract the global minimum from every sample. -/
noncomputable def fft_postprocess (img : SImage) : SImage :=
  { humanize img with
    xreal := 1 / (img.xreal / img.xres)
    yreal := 1 / (img.yreal / img.yres)
    xoff := -(((img.xres : ℝ) / 2) * (1 / (img.xreal / img.xres)) / img.xres)
    yoff := -(((img.yres : ℝ) / 2) * (1 / (img.yreal / img.yres)) / img.yres)
    data := fun k =>
      (humanize img).data k - listMin (samples (humanize img)) }

/-- The spectral transform of `perform_fft` (src/calibrate_hcp.c:891-912)
after the external 2D FFT primitive has produced the real part `ra` and the
imaginary part `ip` (both of the input's resolution, `new_alike`): modulus,
then post-processing. -/
noncomputable def spectral_transform (img : SImage) (ra ip : ℕ → ℝ) :
    SImage :=
  fft_postprocess
    (set_dfield_modulus { img with data := ra } { img with data := ip } img)

/-! ### Helper lemmas -/

lemma le_runningMax (m : ℚ) (l : List (ℤ × ℤ × ℚ)) : m ≤ runningMax m l := by
  induction l generalizing m with
  | nil => exact le_refl m
  | cons x l ih =>
    exact le_trans (le_max_left m x.2.2) (ih (max m x.2.2))

lemma pickStep_val (c x : ℤ × ℤ × ℚ) :
    (pickStep c x).2.2 = max c.2.2 x.2.2 := by
  unfold pickStep
  split_ifs with h
  · exact (max_eq_right (le_of_lt h)).symm
  · exact (max_eq_left (le_of_not_lt h)).symm

/-- The scan fold returns the first candidate, in the order initial candidate
first and then visit order, whose value attains the running maximum. -/
lemma foldl_pickStep_eq_find (l : List (ℤ × ℤ × ℚ)) :
    ∀ c : ℤ × ℤ × ℚ, some (l.foldl pickStep c) =
      (c :: l).find? fun x => decide (x.2.2 = runningMax c.2.2 l) := by
  induction l with
  | nil =>
    intro c
    simp [runningMax]
  | cons x l ih =>
    intro c
    have hM : runningMax c.2.2 (x :: l) = runningMax (pickStep c x).2.2 l := by
      rw [pickStep_val]
      rfl
    have hfold : (x :: l).foldl pickStep c = l.foldl pickStep (pickStep c x) := rfl
    rw [hfold, hM, ih (pickStep c x)]
    by_cases h : x.2.2 > c.2.2
    · have hps : pickStep c x = x := if_pos h
      rw [hps]
      have hxle : x.2.2 ≤ runningMax x.2.2 l := le_runningMax x.2.2 l
      have hcne : ¬(c.2.2 = runningMax x.2.2 l) :=
        ne_of_lt (lt_of_lt_of_le h hxle)
      exact (List.find?_cons_of_neg _ (by simpa using hcne)).symm
    · have hps : pickStep c x = c := if_neg h
      rw [hps]
      have hcle : c.2.2 ≤ runningMax c.2.2 l := le_runningMax c.2.2 l
      by_cases hc : c.2.2 = runningMax c.2.2 l
      · rw [List.find?_cons_of_pos _ (by simpa using hc),
          List.find?_cons_of_pos _ (by simpa using hc)]
      · have hclt : c.2.2 < runningMax c.2.2 l := lt_of_le_of_ne hcle hc
        have hxne : ¬(x.2.2 = runningMax c.2.2 l) :=
          ne_of_lt (lt_of_le_of_lt (le_of_not_lt h) hclt)
        rw [List.find?_cons_of_neg _ (by simpa using hc),
          List.find?_cons_of_neg _ (by simpa using hc),
          List.find?_cons_of_neg _ (by simpa using hxne)]

/-- With radius 0 the scan window is empty, so the result is the rounded
input pixel with its own value. -/
lemma peak_find_core_zero (val : ℤ → ℤ → ℚ) (Xres Yres col row : ℤ) :
    peak_find_core val Xres Yres col row 0 = (col, row, val col row) := by
  have hw : (highBound Xres col 0 - lowBound col 0).toNat = 0 := by
    unfold lowBound highBound
    split_ifs <;> omega
  unfold peak_find_core candList windowList
  rw [hw]
  rfl

/-- Converting a column index to its real coordinate and back returns the
same column index. -/
lemma rtoj_jtor (img : QImage) (hxr : img.xreal ≠ 0)
    (hX : (img.Xres : ℚ) ≠ 0) (c : ℤ) : rtoj img (jtor img c) = c := by
  unfold rtoj jtor
  have h : c * img.xreal / img.Xres * img.Xres / img.xreal = (c : ℚ) := by
    field_simp
  rw [h, Int.floor_intCast]

/-- Converting a row index to its real coordinate and back returns the same
row index. -/
lemma rtoi_itor (img : QImage) (hyr : img.yreal ≠ 0)
    (hY : (img.Yres : ℚ) ≠ 0) (c : ℤ) : rtoi img (itor img c) = c := by
  unfold rtoi itor
  have h : c * img.yreal / img.Yres * img.Yres / img.yreal = (c : ℚ) := by
    field_simp
  rw [h, Int.floor_intCast]

/-! ### Claim C8: manual scale entries -/

/-- C8: a positive manually entered scale factor replaces the stored value
(the stored state afterwards equals the entered value), and a non-positive
one is silently ignored (the prior stored value is retained), for both the X
and the Y entry handlers. -/
theorem C8_manual_scale_entry (cur num : ℚ) :
    (0 < num → xscale_changed cur num = num) ∧
    (num ≤ 0 → xscale_changed cur num = cur) ∧
    (0 < num → yscale_changed cur num = num) ∧
    (num ≤ 0 → yscale_changed cur num = cur) := by
  refine ⟨fun h => ?_, fun h => ?_, fun h => ?_, fun h => ?_⟩ <;>
    · simp only [xscale_changed, yscale_changed]
      split_ifs with hc
      · first
          | rfl
          | exact absurd h (by exact not_le_of_lt hc.2)
      · first
          | rfl
          | { rcases not_and_or.mp hc with hne | hpos
              · exact (not_not.mp hne).symm
              · exact absurd h hpos }

/-- Witness for C8 at concrete inputs: entering `2` over a stored `5` stores
`2`; entering `-1` over a stored `5` keeps `5`. -/
theorem C8_manual_scale_entry_witness :
    xscale_changed 5 2 = 2 ∧ yscale_changed 5 (-1) = 5 :=
  ⟨(C8_manual_scale_entry 5 2).1 (by norm_num),
   (C8_manual_scale_entry 5 (-1)).2.2.2 (by norm_num)⟩

/-! ### Claim C9: intensity-clamp entries -/

/-- C9: a manually entered clamp bound inside the data range `[mn, mx]` is
stored as entered; a value below `mn` is silently replaced by `mn`; a value
above `mx` is silently replaced by `mx`; the stored result always lies in
`[mn, mx]` (the entry is never rejected). This holds for both the lower and
the upper entry handlers. -/
theorem C9_threshold_clamp (old mn mx num : ℚ) (h : mn ≤ mx) :
    ((mn ≤ num ∧ num ≤ mx) → threshold_lower_changed old mn mx num = num) ∧
    (num < mn → threshold_lower_changed old mn mx num = mn) ∧
    (mx < num → threshold_lower_changed old mn mx num = mx) ∧
    (mn ≤ threshold_lower_changed old mn mx num ∧
      threshold_lower_changed old mn mx num ≤ mx) ∧
    ((mn ≤ num ∧ num ≤ mx) → threshold_upper_changed old mn mx num = num) ∧
    (num < mn → threshold_upper_changed old mn mx num = mn) ∧
    (mx < num → threshold_upper_changed old mn mx num = mx) ∧
    (mn ≤ threshold_upper_changed old mn mx num ∧
      threshold_upper_changed old mn mx num ≤ mx) := by
  unfold threshold_lower_changed threshold_upper_changed
  split_ifs with h1 h2 h3
  · exact ⟨fun _ => rfl, fun hlt => absurd h1.1 (not_le_of_lt hlt),
      fun hlt => absurd h1.2 (not_le_of_lt hlt), ⟨h1.1, h1.2⟩,
      fun _ => rfl, fun hlt => absurd h1.1 (not_le_of_lt hlt),
      fun hlt => absurd h1.2 (not_le_of_lt hlt), ⟨h1.1, h1.2⟩⟩
  · exact ⟨fun hin => absurd hin h1, fun _ => rfl,
      fun hlt => absurd (lt_trans h2 (lt_of_le_of_lt h hlt)) (lt_irrefl num),
      ⟨le_refl mn, h⟩,
      fun hin => absurd hin h1, fun _ => rfl,
      fun hlt => absurd (lt_trans h2 (lt_of_le_of_lt h hlt)) (lt_irrefl num),
      ⟨le_refl mn, h⟩⟩
  · exact ⟨fun hin => absurd hin h1, fun hlt => absurd hlt h2,
      fun _ => rfl, ⟨h, le_refl mx⟩,
      fun hin => absurd hin h1, fun hlt => absurd hlt h2,
      fun _ => rfl, ⟨h, le_refl mx⟩⟩
  · exact absurd (And.intro (le_of_not_lt h2) (le_of_not_lt h3)) h1

/-- Witness for C9 at concrete inputs: with data range `[1, 5]`, entering `3`
stores `3` (and the other guarantees hold at that input). -/
theorem C9_threshold_clamp_witness :
    threshold_lower_changed 0 1 5 3 = 3 ∧ threshold_upper_changed 0 1 5 3 = 3 :=
  ⟨((C9_threshold_clamp 0 1 5 3 (by norm_num)).1 (by norm_num)),
   ((C9_threshold_clamp 0 1 5 3 (by norm_num)).2.2.2.2.1 (by norm_num))⟩

/-! ### Claim C6: zoom point mapping -/

/-- C6: mapping a display point to its absolute coordinate and back at the
same (nonzero) zoom level is the identity in both directions (the mapping is
the exact inverse affine transform implied by dividing the display offsets by
the zoom level); mapping a point from zoom level 2 to zoom level 1 and back
to zoom level 2 returns the original coordinate exactly; and changing zoom
level re-maps all currently held selection points rather than discarding
them (the adjusted list keeps every entry). -/
theorem C6_zoom_roundtrip (pt p off xoff yoff : ℚ) (z : ℚ) (hz : z ≠ 0)
    (peaks : List (ℚ × ℚ)) :
    zoom_point_from_abs (zoom_abs_from_point pt off z) off z = pt ∧
    zoom_abs_from_point (zoom_point_from_abs p off z) off z = p ∧
    zoom_point_from_abs
      (zoom_abs_from_point
        (zoom_point_from_abs (zoom_abs_from_point pt off 2) off 1) off 1)
      off 2 = pt ∧
    (zoom_adjust_peaks peaks xoff yoff z).length = peaks.length ∧
    zoom_display_offset off z = off * (1 / z) := by
  refine ⟨?_, ?_, ?_, ?_, ?_⟩
  · simp only [zoom_point_from_abs, zoom_abs_from_point]
    field_simp
  · simp only [zoom_point_from_abs, zoom_abs_from_point]
    field_simp
  · simp only [zoom_point_from_abs, zoom_abs_from_point]
    ring
  · simp [zoom_adjust_peaks]
  · simp only [zoom_display_offset]
    field_simp

/-- Witness for C6 at concrete inputs (zoom level 2, point 3, peak 5,
offsets 4, 6, 7, one held selection point). -/
theorem C6_zoom_roundtrip_witness :
    zoom_point_from_abs (zoom_abs_from_point 3 4 2) 4 2 = 3 ∧
    zoom_abs_from_point (zoom_point_from_abs 5 4 2) 4 2 = 5 ∧
    zoom_point_from_abs
      (zoom_abs_from_point
        (zoom_point_from_abs (zoom_abs_from_point 3 4 2) 4 1) 4 1)
      4 2 = 3 ∧
    (zoom_adjust_peaks [(1, 2)] 6 7 2).length = [((1 : ℚ), (2 : ℚ))].length ∧
    zoom_display_offset 4 2 = 4 * (1 / 2) :=
  C6_zoom_roundtrip 3 5 4 6 7 2 (by norm_num) [(1, 2)]

lemma foldl_min_map_sub (c : ℝ) :
    ∀ (xs : List ℝ) (x : ℝ),
      (xs.map fun v => v - c).foldl min (x - c) = xs.foldl min x - c := by
  intro xs
  induction xs with
  | nil => intro x; rfl
  | cons y ys ih =>
    intro x
    simp only [List.map_cons, List.foldl_cons]
    rw [min_sub_sub_right, ih (min x y)]

lemma listMin_map_sub (c : ℝ) (l : List ℝ) (h : l ≠ []) :
    listMin (l.map fun v => v - c) = listMin l - c := by
  cases l with
  | nil => exact absurd rfl h
  | cons x xs =>
    simp only [List.map_cons, listMin]
    exact foldl_min_map_sub c xs x

/-- The samples of the post-processed field are the humanized samples with
the global minimum subtracted. -/
lemma samples_fft_postprocess (img : SImage) :
    samples (fft_postprocess img) =
      (samples (humanize img)).map
        (fun v => v - listMin (samples (humanize img))) := by
  simp only [samples, fft_postprocess, humanize, List.map_map]
  rfl

/-! ### Claim C10: scale reset on a non-full selection -/

/-- C10: whenever the scale update runs while the selection holds fewer than
two points, the stored scale factors are both reset to 0 and both warning
flags are cleared; in particular this happens after clearing the
selection. -/
theorem C10_scale_reset (points : List (ℝ × ℝ)) (p0 p1 : ℝ × ℝ)
    (lattice : ℝ) (h : points.length < 2) :
    calibrate_update_scales points p0 p1 lattice =
      { Xscale := 0, Yscale := 0, Xwarning := False, Ywarning := False } ∧
    clear_points p0 p1 lattice =
      { Xscale := 0, Yscale := 0, Xwarning := False, Ywarning := False } := by
  constructor
  · unfold calibrate_update_scales
    rw [if_neg (by omega)]
  · unfold clear_points calibrate_update_scales
    rw [if_neg (by simp)]

/-- Witness for C10: the update on an empty selection resets the state. -/
theorem C10_scale_reset_witness :
    calibrate_update_scales [] (1, 2) (3, 4) 1 =
      { Xscale := 0, Yscale := 0, Xwarning := False, Ywarning := False } ∧
    clear_points (1, 2) (3, 4) 1 =
      { Xscale := 0, Yscale := 0, Xwarning := False, Ywarning := False } :=
  C10_scale_reset [] (1, 2) (3, 4) 1 (by decide)

/-! ### Claim C3: calibration applier geometry -/

/-- C3: the output geometry of the Calibration Applier is
`round(oldXres)` (equal to `oldXres`), `round(oldYres * Yscale / Xscale)`,
`oldXreal * Xscale` and `oldYreal * Yscale`; applying the identity scale
factors `Xscale = Yscale = 1` reproduces the original geometry exactly. -/
theorem C3_calibrate_do (g : ImageGeom) (Xscale Yscale : ℝ)
    (hX : Xscale ≠ 0) :
    (calibrate_do g Xscale Yscale).xres = g.xres ∧
    (calibrate_do g Xscale Yscale).yres =
      gwyRound (g.yres * Yscale / Xscale) ∧
    (calibrate_do g Xscale Yscale).xreal = g.xreal * Xscale ∧
    (calibrate_do g Xscale Yscale).yreal = g.yreal * Yscale ∧
    calibrate_do g 1 1 = g := by
  have hround : ∀ n : ℤ, gwyRound (n : ℝ) = n := by
    intro n
    unfold gwyRound
    rw [Int.floor_int_add]
    norm_num
  refine ⟨hround g.xres, rfl, rfl, rfl, ?_⟩
  cases g with
  | mk a b c d =>
    simp only [calibrate_do, mul_one, div_one, hround]

/-- Witness for C3 at a concrete geometry and concrete nonzero scale
factors. -/
theorem C3_calibrate_do_witness :
    (calibrate_do ⟨2, 3, 5, 7⟩ 2 3).xres = 2 ∧
    (calibrate_do ⟨2, 3, 5, 7⟩ 2 3).yres = gwyRound ((3 : ℝ) * 3 / 2) ∧
    (calibrate_do ⟨2, 3, 5, 7⟩ 2 3).xreal = 5 * 2 ∧
    (calibrate_do ⟨2, 3, 5, 7⟩ 2 3).yreal = 7 * 3 ∧
    calibrate_do ⟨2, 3, 5, 7⟩ 1 1 = ⟨2, 3, 5, 7⟩ :=
  C3_calibrate_do ⟨2, 3, 5, 7⟩ 2 3 (by norm_num)

/-! ### Claim C2: solver warning flags -/

/-- C2: after the Lattice Solver runs, `Xwarning` holds exactly when
`x1² = x2²`, or `x1² = 0`, or the computed `Xscale` differs from itself (the
code's NaN test, vacuous over the reals), or `x1²·y2² = x2²·y1²`; `Ywarning`
holds exactly when `y1² = y2²`, or the computed `Yscale` differs from
itself, or `x1²·y2² = x2²·y1²`; `x1 = x2` sets `Xwarning` (whether or not
the value is zero); and the decision to apply the computed scale factors
never consults the warning flags. -/
theorem C2_warning_flags (x1 y1 x2 y2 a : ℝ) :
    ((calibration_get_factors x1 y1 x2 y2 a).Xwarning ↔
      (x1 * x1 = x2 * x2 ∨ x1 * x1 = 0 ∨
        (calibration_get_factors x1 y1 x2 y2 a).Xscale ≠
          (calibration_get_factors x1 y1 x2 y2 a).Xscale ∨
        x1 * x1 * (y2 * y2) = x2 * x2 * (y1 * y1))) ∧
    ((calibration_get_factors x1 y1 x2 y2 a).Ywarning ↔
      (y1 * y1 = y2 * y2 ∨
        (calibration_get_factors x1 y1 x2 y2 a).Yscale ≠
          (calibration_get_factors x1 y1 x2 y2 a).Yscale ∨
        x1 * x1 * (y2 * y2) = x2 * x2 * (y1 * y1))) ∧
    (x1 = x2 → (calibration_get_factors x1 y1 x2 y2 a).Xwarning) ∧
    (∀ (full : Bool) (w w' : Prop),
      calibrate_applies full
        { Xscale := (calibration_get_factors x1 y1 x2 y2 a).Xscale,
          Yscale := (calibration_get_factors x1 y1 x2 y2 a).Yscale,
          Xwarning := w, Ywarning := w' } ↔
      calibrate_applies full (calibration_get_factors x1 y1 x2 y2 a)) := by
  refine ⟨?_, ?_, ?_, ?_⟩
  · simp only [calibration_get_factors]
    tauto
  · simp only [calibration_get_factors]
    tauto
  · intro h
    simp only [calibration_get_factors]
    exact Or.inl (Or.inl (Or.inl (Or.inr (by rw [h]))))
  · intro full w w'
    exact Iff.rfl

/-- Witness for C2: two coincident peaks `x1 = x2 = 1` raise `Xwarning`. -/
theorem C2_warning_flags_witness :
    (calibration_get_factors 1 0 1 0 1).Xwarning :=
  (C2_warning_flags 1 0 1 0 1).2.2.1 rfl

/-! ### Claim C4: peak scan window and tie-breaking (corrected) -/

/-- C4 counterexample: on a 3×3 image whose samples are all equal, with
rounded input pixel (1,1) and radius 1, the code keeps the rounded input
pixel (the loop replaces the best candidate only on strictly greater
values), while the claimed first-encountered-in-row-major-scan-order policy
returns the window corner (0,0); the two results differ. -/
theorem C4_counterexample :
    peak_find_core (fun _ _ => 0) 3 3 1 1 1 = (1, 1, 0) ∧
    claimed_peak_refine (fun _ _ => 0) 3 3 1 1 1 = (0, 0, 0) ∧
    peak_find_core (fun _ _ => 0) 3 3 1 1 1 ≠
      claimed_peak_refine (fun _ _ => 0) 3 3 1 1 1 := by
  refine ⟨by decide, by decide, by decide⟩

/-- C4 (amended): the Peak Locator scans exactly the half-open square window
`[col-r, col+r) × [row-r, row+r)` clamped to the image bounds (radius 0
considers only the rounded input pixel), and its result is the first
candidate attaining the maximum sample value in the order: the rounded input
pixel first, then the window traversed with the column index in the outer
loop and the row index ascending in the inner loop — so ties between equal
maxima favor the rounded input pixel and otherwise the first pixel
encountered in that (column-outer) order. -/
theorem C4_peak_scan_order (val : ℤ → ℤ → ℚ) (Xres Yres col row r : ℤ) :
    some (peak_find_core val Xres Yres col row r) =
      ((col, row, val col row) ::
        candList val (lowBound col r) (highBound Xres col r)
          (lowBound row r) (highBound Yres row r)).find?
        (fun x => decide (x.2.2 = runningMax (val col row)
          (candList val (lowBound col r) (highBound Xres col r)
            (lowBound row r) (highBound Yres row r)))) ∧
    peak_find_core val Xres Yres col row 0 = (col, row, val col row) :=
  ⟨foldl_pickStep_eq_find _ _, peak_find_core_zero val Xres Yres col row⟩

/-! ### Claim C7: radius-0 refinement and idempotence -/

/-- C7: with radius 0 the Peak Locator returns the sample at the rounded
input pixel unchanged and leaves the selection point untouched; refining the
refined peak position (translated back to the selection frame) yields the
same peak triple, so radius-0 refinement is idempotent. -/
theorem C7_radius_zero (img : QImage) (pt : ℚ × ℚ)
    (hxr : img.xreal ≠ 0) (hyr : img.yreal ≠ 0)
    (hX : (img.Xres : ℚ) ≠ 0) (hY : (img.Yres : ℚ) ≠ 0) :
    (peak_find img 0 pt).1.2.2 = img.val (rtoj img pt.1) (rtoi img pt.2) ∧
    (peak_find img 0 pt).2 = pt ∧
    (peak_find img 0 ((peak_find img 0 pt).1.1 - img.xoff,
        (peak_find img 0 pt).1.2.1 - img.yoff)).1 = (peak_find img 0 pt).1 := by
  have hz := peak_find_core_zero img.val img.Xres img.Yres
    (rtoj img pt.1) (rtoi img pt.2)
  refine ⟨?_, ?_, ?_⟩
  · simp only [peak_find, hz]
  · simp only [peak_find, hz, sub_self, ne_eq, not_true_eq_false, or_self,
      if_false]
  · have hfst : (peak_find img 0 pt).1.1 - img.xoff =
        jtor img (rtoj img pt.1) := by
      simp only [peak_find, hz, add_sub_cancel_right]
    have hsnd : (peak_find img 0 pt).1.2.1 - img.yoff =
        itor img (rtoi img pt.2) := by
      simp only [peak_find, hz, add_sub_cancel_right]
    rw [hfst, hsnd]
    have hz2 := peak_find_core_zero img.val img.Xres img.Yres
      (rtoj img (jtor img (rtoj img pt.1)))
      (rtoi img (itor img (rtoi img pt.2)))
    simp only [peak_find, hz, hz2, rtoj_jtor img hxr hX, rtoi_itor img hyr hY]

/-- Witness for C7 on a concrete 1×1 image of constant value 5 at the
origin. -/
theorem C7_radius_zero_witness :
    (peak_find ⟨1, 1, 1, 1, 0, 0, fun _ _ => 5⟩ 0 (0, 0)).1.2.2 =
      (⟨1, 1, 1, 1, 0, 0, fun _ _ => 5⟩ : QImage).val
        (rtoj ⟨1, 1, 1, 1, 0, 0, fun _ _ => 5⟩ 0)
        (rtoi ⟨1, 1, 1, 1, 0, 0, fun _ _ => 5⟩ 0) ∧
    (peak_find ⟨1, 1, 1, 1, 0, 0, fun _ _ => 5⟩ 0 (0, 0)).2 = (0, 0) ∧
    (peak_find ⟨1, 1, 1, 1, 0, 0, fun _ _ => 5⟩ 0
        ((peak_find ⟨1, 1, 1, 1, 0, 0, fun _ _ => 5⟩ 0 (0, 0)).1.1 - 0,
         (peak_find ⟨1, 1, 1, 1, 0, 0, fun _ _ => 5⟩ 0 (0, 0)).1.2.1 - 0)).1 =
      (peak_find ⟨1, 1, 1, 1, 0, 0, fun _ _ => 5⟩ 0 (0, 0)).1 :=
  C7_radius_zero ⟨1, 1, 1, 1, 0, 0, fun _ _ => 5⟩ (0, 0)
    (by norm_num) (by norm_num) (by norm_num) (by norm_num)

/-! ### Claim C1: lattice solver equations and the concrete triangle -/

/-- C1: the Lattice Solver returns `Xscale = 1/xcorr` and `Yscale = 1/ycorr`
with `ycorr` and `xcorr` given by the closed-form equations in terms of
`R = 2/(sqrt(3)·a)`, for every pair of peak positions; and on the
non-degenerate triangle `x1 = 3, y1 = 1, x2 = 1, y2 = 3` with any positive
lattice constant both returned scale factors are positive (they are finite
real numbers by construction in the real-number model). -/
theorem C1_lattice_solver (a : ℝ) (ha : 0 < a) :
    (∀ x1 y1 x2 y2 : ℝ,
      (calibration_get_factors x1 y1 x2 y2 a).Xscale =
        1 / xcorrOf x1 y1 x2 y2 a ∧
      (calibration_get_factors x1 y1 x2 y2 a).Yscale =
        1 / ycorrOf x1 y1 x2 y2 a ∧
      ycorrOf x1 y1 x2 y2 a =
        R a * Real.sqrt ((x1 * x1 - x2 * x2) /
          (x1 * x1 * (y2 * y2) - x2 * x2 * (y1 * y1))) ∧
      xcorrOf x1 y1 x2 y2 a =
        Real.sqrt ((R a * R a -
          ycorrOf x1 y1 x2 y2 a * ycorrOf x1 y1 x2 y2 a * (y1 * y1)) /
          (x1 * x1))) ∧
    0 < (calibration_get_factors 3 1 1 3 a).Xscale ∧
    0 < (calibration_get_factors 3 1 1 3 a).Yscale := by
  have hR : 0 < R a := by
    unfold R
    have h3 : 0 < Real.sqrt 3 := Real.sqrt_pos.mpr (by norm_num)
    positivity
  have hyc : ycorrOf 3 1 1 3 a = R a * Real.sqrt (1 / 10) := by
    unfold ycorrOf
    norm_num
  have hy : 0 < ycorrOf 3 1 1 3 a := by
    rw [hyc]
    exact mul_pos hR (Real.sqrt_pos.mpr (by norm_num))
  have hsq : Real.sqrt (1 / 10) * Real.sqrt (1 / 10) = 1 / 10 :=
    Real.mul_self_sqrt (by norm_num)
  have hxc : xcorrOf 3 1 1 3 a = Real.sqrt (R a * R a / 10) := by
    unfold xcorrOf
    rw [hyc]
    rw [show R a * Real.sqrt (1 / 10) * (R a * Real.sqrt (1 / 10)) *
          ((1 : ℝ) * 1) =
        R a * R a * (Real.sqrt (1 / 10) * Real.sqrt (1 / 10)) from by ring]
    rw [hsq]
    congr 1
    ring
  have hx : 0 < xcorrOf 3 1 1 3 a := by
    rw [hxc]
    exact Real.sqrt_pos.mpr (by positivity)
  exact ⟨fun x1 y1 x2 y2 => ⟨rfl, rfl, rfl, rfl⟩,
    one_div_pos.mpr hx, one_div_pos.mpr hy⟩

/-- Witness for C1 at lattice constant 1. -/
theorem C1_lattice_solver_witness :
    0 < (calibration_get_factors 3 1 1 3 1).Xscale ∧
    0 < (calibration_get_factors 3 1 1 3 1).Yscale :=
  ⟨(C1_lattice_solver 1 one_pos).2.1, (C1_lattice_solver 1 one_pos).2.2⟩

/-! ### Claim C5: spectral transform resolution and normalization -/

/-- C5: the Spectral Transform's output has the same resolution as the
input, its modulus step computes `hypot(re, im) = sqrt(re² + im²)`
elementwise, and after the final normalization (subtracting the global
minimum) the minimum sample value of the output is exactly 0. -/
theorem C5_spectral_transform (img : SImage) (ra ip : ℕ → ℝ)
    (hx : 1 ≤ img.xres) (hy : 1 ≤ img.yres) :
    (spectral_transform img ra ip).xres = img.xres ∧
    (spectral_transform img ra ip).yres = img.yres ∧
    (∀ k, (set_dfield_modulus { img with data := ra } { img with data := ip }
        img).data k = Real.sqrt (ra k ^ 2 + ip k ^ 2)) ∧
    listMin (samples (spectral_transform img ra ip)) = 0 := by
  refine ⟨rfl, rfl, fun k => rfl, ?_⟩
  have hne : samples (humanize (set_dfield_modulus { img with data := ra }
      { img with data := ip } img)) ≠ [] := by
    apply List.ne_nil_of_length_pos
    simp only [samples, List.length_map, List.length_range]
    exact Nat.mul_pos hx hy
  have hs := samples_fft_postprocess
    (set_dfield_modulus { img with data := ra } { img with data := ip } img)
  show listMin (samples (fft_postprocess (set_dfield_modulus
      { img with data := ra } { img with data := ip } img))) = 0
  rw [hs, listMin_map_sub _ _ hne, sub_self]

/-- Witness for C5 on a concrete 1×1 image with zero FFT outputs. -/
theorem C5_spectral_transform_witness :
    (spectral_transform ⟨1, 1, 1, 1, 0, 0, fun _ => 0⟩ (fun _ => 0)
      (fun _ => 0)).xres = 1 ∧
    (spectral_transform ⟨1, 1, 1, 1, 0, 0, fun _ => 0⟩ (fun _ => 0)
      (fun _ => 0)).yres = 1 ∧
    (∀ k, (set_dfield_modulus ⟨1, 1, 1, 1, 0, 0, fun _ => 0⟩
        ⟨1, 1, 1, 1, 0, 0, fun _ => 0⟩
        ⟨1, 1, 1, 1, 0, 0, fun _ => 0⟩).data k =
      Real.sqrt ((0 : ℝ) ^ 2 + (0 : ℝ) ^ 2)) ∧
    listMin (samples (spectral_transform ⟨1, 1, 1, 1, 0, 0, fun _ => 0⟩
      (fun _ => 0) (fun _ => 0))) = 0 :=
  C5_spectral_transform ⟨1, 1, 1, 1, 0, 0, fun _ => 0⟩ (fun _ => 0)
    (fun _ => 0) (le_refl 1) (le_refl 1)

end CalibrateHcp
